import Mathlib

/-!
Verification of the CUBETAGEDIT tag editor (`src/tag_editor.py`) against its
natural-language specification.

The development shallowly embeds the metadata façade (`TagIO`), the file
browser (`FileBrowser`) and the field-edit step of the session controller
(`Tui.edit_field`).  Python dictionaries are modelled as association lists
(`List (String × β)`); mutagen's in-memory tag objects are modelled by the
`Handle` structure and the on-disk file content by the `Disk` structure.
Underlying library writes (`*.save()`) can raise I/O exceptions in Python;
each modelled operation therefore takes an explicit error oracle
(`Option String`, `none` = the write succeeds, `some e` = it raises with
message `e`), mirroring the `try/except` structure of the source.
-/

set_option autoImplicit false

namespace CubeTag

/-- Association-list lookup, modelling Python `dict.get`: the value bound to
`k`, or `none` when the key is absent. -/
def alookup {β : Type} (k : String) : List (String × β) → Option β
  | [] => none
  | (k', v) :: rest => if k' = k then some v else alookup k rest

/-- Association-list key-membership, modelling Python `key in dict`. -/
def amem {β : Type} (k : String) : List (String × β) → Bool
  | [] => false
  | (k', _) :: rest => if k' = k then true else amem k rest

/-- Association-list deletion, modelling Python `del dict[key]` (removes every
binding of `k`). -/
def aerase {β : Type} (k : String) : List (String × β) → List (String × β)
  | [] => []
  | (k', v) :: rest => if k' = k then aerase k rest else (k', v) :: aerase k rest

/-- Association-list update, modelling Python `dict[key] = value`.  The
rebinding is placed at the end of the list; key order is irrelevant to every
property proved below. -/
def ainsert {β : Type} (k : String) (v : β) (m : List (String × β)) :
    List (String × β) :=
  aerase k m ++ [(k, v)]

/-- A normalized text-tag map: field name → ordered list of string values
(mutagen easy-tag values are lists of strings). -/
abbrev TagMap := List (String × List String)

/-- `normalize_value` (tag_editor.py lines 45–50).  Easy-tag lookups return
either `None` (absent) or a list of values; the scalar branch of the source is
inapplicable to the list-valued maps modelled here. -/
def normalize_value : Option (List String) → List String
  | none => []
  | some l => l

/-- An embedded picture block (mutagen `Picture` / FLAC METADATA_BLOCK_PICTURE
payload): picture-type code, MIME string, description, raw image bytes. -/
structure Pic where
  ptype : Nat
  mime : String
  desc : String
  data : List Nat
  deriving DecidableEq

/-- An ID3 `APIC` frame: text encoding, MIME, picture-type code, description,
raw image bytes. -/
structure ApicFrame where
  encoding : Nat
  mime : String
  ptype : Nat
  desc : String
  data : List Nat
  deriving DecidableEq

/-- An ID3 frame: either an attached-picture frame or some other frame whose
payload is irrelevant to cover-art operations. -/
inductive Frame where
  | apic (a : ApicFrame)
  | other (payload : String)
  deriving DecidableEq

/-- An ID3 frame collection keyed by hash key (e.g. `"APIC:cover"`). -/
abbrev ID3Tags := List (String × Frame)

/-- An MP4 `covr` atom entry (`MP4Cover`): raw bytes plus the image-format
code (`MP4Cover.FORMAT_JPEG = 13`, `MP4Cover.FORMAT_PNG = 14`). -/
structure MP4CoverItem where
  data : List Nat
  imageformat : Nat
  deriving DecidableEq

/-- The format-specific raw tag object held in `self.raw`
(`MutagenFile(path)`), by detected container kind.

* `flac`: the FLAC picture list (`raw.pictures`).
* `mp4`: the MP4 tag atom dictionary, `none` when `raw.tags is None`.
* `ogg`: the Vorbis/Opus comment dictionary, `none` when `raw.tags is None`.
* `id3`: the frame-tagged fallback (e.g. MP3); carries the in-memory
  `raw.tags` (`none` = no ID3 header loaded).  Cover mutation on this kind
  re-reads the frames from disk via `ID3(self.path)`.
* `nofile`: `MutagenFile` returned `None` (unsupported container). -/
inductive Raw where
  | flac (pictures : List Pic)
  | mp4 (tags : Option (List (String × List MP4CoverItem)))
  | ogg (tags : Option TagMap)
  | id3 (tags : Option ID3Tags)
  | nofile
  deriving DecidableEq

/-- One opened audio file (`TagIO` instance): the easy text-tag view
(`self.audio`, `none` when unsupported) and the raw view (`self.raw`). -/
structure Handle where
  audio : Option TagMap
  raw : Raw
  deriving DecidableEq

/-- The on-disk content of the opened file, split into the components the
tool's writes can reach: the easy text tags, the raw cover structures
written by `raw.save()` for FLAC/MP4/Ogg, and the ID3 frames reachable via
`ID3(self.path)` for the frame-tagged fallback path. -/
structure Disk where
  easy : TagMap
  raw : Raw
  id3f : Option ID3Tags
  deriving DecidableEq

/-- `TagEditor.get` (lines 68–75): the values of `key`, `[]` when the handle is
unsupported or the key absent.  The source's `try/except` makes the lookup
total; the model is a total function. -/
def TagEditor.get (h : Handle) (key : String) : List String :=
  match h.audio with
  | none => []
  | some m => normalize_value (alookup key m)

/-- `TagEditor.set` (lines 77–89), threading the on-disk state through to record
that the method performs no file I/O.  An unsupported handle is left
untouched; the empty string deletes the key when present (a key held by the
easy view never raises on membership test or deletion); a non-empty value
rebinds the key to the single-element list `[value]` — unless the format's
easy view rejects the key, in which case the assignment raises and the
`except: pass` at lines 87–89 silently discards the write.  `accepts`
injects that per-format key registry (mutagen behaviour, external to this
repository): `accepts key = false` means `self.audio[key] = [value]`
raises. -/
def TagEditor.set (accepts : String → Bool) (h : Handle) (d : Disk)
    (key value : String) : Handle × Disk :=
  match h.audio with
  | none => (h, d)
  | some m =>
    if value = "" then
      if amem key m then ({ h with audio := some (aerase key m) }, d)
      else (h, d)
    else
      if accepts key then ({ h with audio := some (ainsert key [value] m) }, d)
      else (h, d)

/-- Modelled from the spec: which of the catalog fields the easy view of a
frame-tagged (MP3) handle accepts.  Mutagen's `EasyID3` registry (external
to this repository) covers eight of the nine catalog fields but has no
`comment` key, so assigning `comment` raises `EasyID3KeyError` and the
source's `except: pass` silently discards the write — the silent discard
spec §9 documents. -/
def easyID3Accepts (k : String) : Bool :=
  (["title", "artist", "album", "albumartist", "tracknumber",
    "discnumber", "date", "genre"] : List String).contains k

/-- The effect of `self.raw.save()` on the disk: FLAC/MP4/Ogg raw objects
rewrite the raw cover structures; an MP3-style raw object writes its ID3
frames; an absent raw object writes nothing. -/
def writeRaw (r : Raw) (d : Disk) : Disk :=
  match r with
  | .flac ps => { d with raw := .flac ps }
  | .mp4 t => { d with raw := .mp4 t }
  | .ogg t => { d with raw := .ogg t }
  | .id3 (some t) => { d with id3f := some t }
  | .id3 none => d
  | .nofile => d

/-- `TagEditor.save` (lines 91–104).  Unsupported handles fail with
`"Unsupported file format"`.  Otherwise `raw.save()` runs first with its
exception swallowed (`rawErr` oracle), then `audio.save()` writes the easy
tags; if it raises (`audioErr = some e`) the method returns `(false, e)`. -/
def TagEditor.save (h : Handle) (d : Disk) (rawErr audioErr : Option String) :
    (Bool × Option String) × Disk :=
  match h.audio with
  | none => ((false, some "Unsupported file format"), d)
  | some m =>
    let d1 := match rawErr with
      | none => writeRaw h.raw d
      | some _ => d
    match audioErr with
    | none => ((true, none), { d1 with easy := m })
    | some e => ((false, some e), d1)

/-- A field is absent from a handle's in-memory tag structure: the handle is
unsupported, or the easy map has no binding for the key. -/
def fieldAbsent (h : Handle) (k : String) : Bool :=
  match h.audio with
  | none => true
  | some m => !(amem k m)

/-! ### String helpers (modelled over `List Char` so that every proof can be
checked by kernel evaluation) -/

/-- ASCII lower-casing of one character (`str.lower` on the inputs used
here). -/
def lowerChar (c : Char) : Char :=
  if 'A' ≤ c ∧ c ≤ 'Z' then Char.ofNat (c.toNat + 32) else c

/-- ASCII lower-casing of a string. -/
def lowerStr (s : String) : String := ⟨s.data.map lowerChar⟩

/-- `s.startswith(pre)`. -/
def strHasPrefix (pre s : String) : Bool := List.isPrefixOf pre.data s.data

/-- `s.endswith(suf)`. -/
def strHasSuffix (suf s : String) : Bool :=
  List.isPrefixOf suf.data.reverse s.data.reverse

/-- The characters after the last occurrence of `sep` (the whole list when
`sep` does not occur). -/
def afterLast (sep : Char) (l : List Char) : List Char :=
  l.foldl (fun acc c => if c = sep then [] else acc ++ [c]) []

/-- The lower-cased file extension including its dot, `""` when the basename
has none.  Models `posixpath.splitext` as used by `mimetypes.guess_type`:
leading dots of the basename do not start an extension. -/
def extOf (p : String) : String :=
  let b := afterLast '/' p.data
  let rest := b.dropWhile (fun c => c == '.')
  if rest.any (fun c => c == '.') then ⟨'.' :: afterLast '.' rest⟩ else ""

/-- The fixed extension → MIME table.  Modelled from the default map of the
Python `mimetypes` module (an external fixed table), restricted to the image
extensions this tool's picker offers plus representative non-image entries;
lookups are performed on the lower-cased extension. -/
def mimeTable : List (String × String) :=
  [(".jpg", "image/jpeg"), (".jpeg", "image/jpeg"), (".jpe", "image/jpeg"),
   (".png", "image/png"), (".webp", "image/webp"), (".bmp", "image/bmp"),
   (".gif", "image/gif"), (".tiff", "image/tiff"),
   (".txt", "text/plain"), (".html", "text/html"), (".pdf", "application/pdf")]

/-- `mimetypes.guess_type` on a plain path: table lookup of the lower-cased
extension. -/
def guess_type (p : String) : Option String :=
  alookup (lowerStr (extOf p)) mimeTable

/-- The MIME type `set_cover` uses (lines 195–198): the guessed type when it
is an `image/` type, `image/jpeg` otherwise (unrecognized, absent, or
non-image extension). -/
def inferMime (p : String) : String :=
  match guess_type p with
  | none => "image/jpeg"
  | some m => if strHasPrefix "image/" m then m else "image/jpeg"

/-! ### Base64 and the FLAC picture block -/

/-- The base64 alphabet. -/
def b64Chars : List Char :=
  "ABCDEFGHIJKLMNOPQRSTUVWXYZabcdefghijklmnopqrstuvwxyz0123456789+/".data

/-- The base64 character at index `n`. -/
def b64Char (n : Nat) : Char := b64Chars.getD n 'A'

/-- Index of a character in the base64 alphabet. -/
def b64IndexAux : List Char → Char → Nat → Option Nat
  | [], _, _ => none
  | x :: xs, c, i => if x = c then some i else b64IndexAux xs c (i + 1)

/-- Index of a character in the base64 alphabet, `none` for a character
outside it. -/
def b64Index (c : Char) : Option Nat := b64IndexAux b64Chars c 0

/-- `base64.b64encode` over a byte list. -/
def b64EncodeL : List Nat → List Char
  | [] => []
  | [a] => [b64Char (a / 4), b64Char (a % 4 * 16), '=', '=']
  | [a, b] => [b64Char (a / 4), b64Char (a % 4 * 16 + b / 16),
               b64Char (b % 16 * 4), '=']
  | a :: b :: c :: rest =>
      b64Char (a / 4) :: b64Char (a % 4 * 16 + b / 16) ::
      b64Char (b % 16 * 4 + c / 64) :: b64Char (c % 64) :: b64EncodeL rest

/-- `base64.b64decode` over a character list: groups of four alphabet
characters with standard `=` padding; anything else fails.  (The Python
decoder is slightly more lenient about stray characters; no property below
depends on that difference.) -/
def b64DecodeL : List Char → Option (List Nat)
  | [] => some []
  | [a, b, '=', '='] =>
      match b64Index a, b64Index b with
      | some x, some y => some [x * 4 + y / 16]
      | _, _ => none
  | [a, b, c, '='] =>
      match b64Index a, b64Index b, b64Index c with
      | some x, some y, some z => some [x * 4 + y / 16, y % 16 * 16 + z / 4]
      | _, _, _ => none
  | a :: b :: c :: d :: rest =>
      match b64Index a, b64Index b, b64Index c, b64Index d, b64DecodeL rest with
      | some x, some y, some z, some w, some bs =>
          some ((x * 4 + y / 16) :: (y % 16 * 16 + z / 4) :: (z % 4 * 64 + w) :: bs)
      | _, _, _, _, _ => none
  | _ => none

/-- Big-endian 32-bit encoding of a natural number. -/
def be32 (n : Nat) : List Nat :=
  [n / 16777216 % 256, n / 65536 % 256, n / 256 % 256, n % 256]

/-- The bytes of a string (the MIME and description strings used here are
ASCII, for which UTF-8 is the identity). -/
def strBytes (s : String) : List Nat := s.data.map Char.toNat

/-- `mutagen.flac.Picture.write`: the FLAC `METADATA_BLOCK_PICTURE`
serialization — type, MIME, description, dimensions (left zero by the tool),
and payload, with big-endian 32-bit lengths. -/
def picWrite (p : Pic) : List Nat :=
  be32 p.ptype ++
  be32 (strBytes p.mime).length ++ strBytes p.mime ++
  be32 (strBytes p.desc).length ++ strBytes p.desc ++
  be32 0 ++ be32 0 ++ be32 0 ++ be32 0 ++
  be32 p.data.length ++ p.data

/-! ### Cover-art operations -/

/-- The APIC frames delivered by `id3.getall('APIC')`: the attached-picture
frames stored under hash keys beginning with `APIC`, in order. -/
def apicsOf (t : ID3Tags) : List ApicFrame :=
  t.filterMap fun p =>
    match p.2 with
    | .apic a => if strHasPrefix "APIC" p.1 then some a else none
    | .other _ => none

/-- `TagEditor.get_cover_info` (lines 111–154): a human-readable summary of the
first embedded picture, `none` when there is none.  Every branch follows the
source, including the falsiness tests on empty dictionaries and lists and
the `except` fallbacks around base64 decoding. -/
def TagEditor.get_cover_info (h : Handle) : Option String :=
  match h.raw with
  | .flac ps =>
    match ps with
    | [] => none
    | p :: _ =>
        some ("FLAC picture: " ++ (if p.mime = "" then "image/*" else p.mime)
          ++ " (" ++ toString p.data.length ++ " bytes)")
  | .mp4 none => none
  | .mp4 (some t) =>
    if t = [] then none
    else
      match alookup "covr" t with
      | some (c :: _) =>
          some ("MP4 cover: image/" ++ (if c.imageformat = 13 then "jpeg" else "png")
            ++ " (" ++ toString c.data.length ++ " bytes)")
      | _ => none
  | .ogg none => none
  | .ogg (some t) =>
    if t = [] then none
    else
      match alookup "metadata_block_picture" t with
      | some (v :: _) =>
          match b64DecodeL v.data with
          | some bs => some ("Vorbis/Opus picture: (" ++ toString bs.length ++ " bytes)")
          | none => some "Vorbis/Opus picture: (unreadable)"
      | _ =>
        match alookup "coverart" t with
        | some (cv :: _) =>
            match b64DecodeL cv.data, (alookup "coverartmime" t).getD ["image/jpeg"] with
            | some bs, mm :: _ =>
                some ("Vorbis/Opus coverart: " ++ mm ++ " (" ++ toString bs.length ++ " bytes)")
            | _, _ => some "Vorbis/Opus coverart present"
        | _ => none
  | .id3 (some t) =>
    match apicsOf t with
    | [] => none
    | a :: _ =>
        some ("ID3 APIC: " ++ (if a.mime = "" then "image/*" else a.mime)
          ++ " (" ++ toString a.data.length ++ " bytes)")
  | .id3 none => none
  | .nofile => none

/-- `TagEditor.has_cover` (lines 107–109). -/
def TagEditor.has_cover (h : Handle) : Bool :=
  (TagEditor.get_cover_info h).isSome

/-- `TagEditor.clear_cover` (lines 156–189).  Returns the `(ok, reason)` status
together with the updated in-memory handle and disk.  `saveErr` injects an
I/O exception into the underlying save call of the taken branch
(`none` = the save succeeds). -/
def TagEditor.clear_cover (h : Handle) (d : Disk) (saveErr : Option String) :
    (Bool × Option String) × Handle × Disk :=
  match h.raw with
  | .flac _ =>
    let h' := { h with raw := .flac [] }
    match saveErr with
    | none => ((true, none), h', { d with raw := h'.raw })
    | some e => ((false, some e), h', d)
  | .mp4 t =>
    let t' := ainsert "covr" ([] : List MP4CoverItem) (t.getD [])
    let h' := { h with raw := .mp4 (some t') }
    match saveErr with
    | none => ((true, none), h', { d with raw := h'.raw })
    | some e => ((false, some e), h', d)
  | .ogg none => ((true, none), h, d)
  | .ogg (some t) =>
    let t' := aerase "coverartmime" (aerase "coverart" (aerase "metadata_block_picture" t))
    let h' := { h with raw := .ogg (some t') }
    match saveErr with
    | none => ((true, none), h', { d with raw := h'.raw })
    | some e => ((false, some e), h', d)
  | .id3 _ =>
    match d.id3f with
    | none => ((true, none), h, d)
    | some frames =>
      let frames' := frames.filter fun p => !(strHasPrefix "APIC" p.1)
      match saveErr with
      | none => ((true, none), h, { d with id3f := some frames' })
      | some e => ((false, some e), h, d)
  | .nofile => ((false, some "Unsupported format for cover removal"), h, d)

/-- `TagEditor.set_cover` (lines 191–257).  `img` is the result of reading the
image file (`.error e` = the read raised, caught by the outer `except`);
`saveErr` injects an I/O exception into the underlying save call.  The FLAC,
MP4 and Ogg branches mutate the in-memory raw object and then save it; the
fallback branch (frame-tagged or unrecognized raw object) loads the ID3
frames from disk, replaces the APIC frames, and saves them back to the path;
an exception there is swallowed and surfaces as the generic unsupported
message. -/
def TagEditor.set_cover (h : Handle) (d : Disk) (img : Except String (List Nat))
    (imagePath : String) (saveErr : Option String) :
    (Bool × Option String) × Handle × Disk :=
  match img with
  | .error e => ((false, some e), h, d)
  | .ok data =>
    let mime := inferMime imagePath
    match h.raw with
    | .flac _ =>
      let pic : Pic := ⟨3, mime, "cover", data⟩
      let h' := { h with raw := .flac [pic] }
      match saveErr with
      | none => ((true, none), h', { d with raw := h'.raw })
      | some e => ((false, some e), h', d)
    | .mp4 t =>
      let fmt := if mime = "image/png" then 14 else 13
      let t' := ainsert "covr" [(⟨data, fmt⟩ : MP4CoverItem)] (t.getD [])
      let h' := { h with raw := .mp4 (some t') }
      match saveErr with
      | none => ((true, none), h', { d with raw := h'.raw })
      | some e => ((false, some e), h', d)
    | .ogg t =>
      let pic : Pic := ⟨3, mime, "cover", data⟩
      let b64 : String := ⟨b64EncodeL (picWrite pic)⟩
      let t1 := aerase "coverartmime" (aerase "coverart" (t.getD []))
      let t2 := ainsert "metadata_block_picture" [b64] t1
      let h' := { h with raw := .ogg (some t2) }
      match saveErr with
      | none => ((true, none), h', { d with raw := h'.raw })
      | some e => ((false, some e), h', d)
    | .id3 _ | .nofile =>
      let frames := d.id3f.getD []
      let frames' := (frames.filter fun p => !(strHasPrefix "APIC" p.1))
        ++ [("APIC:cover", Frame.apic ⟨3, mime, 3, "cover", data⟩)]
      match saveErr with
      | none => ((true, none), h, { d with id3f := some frames' })
      | some _ => ((false, some "Unsupported format for cover setting"), h, d)

/-! ### The file browser -/

/-- The file-browser state: the displayed entry names (directories carry a
trailing `/`) and the selection index.  The root path and the filesystem are
external; directory listings enter the model as explicit inputs. -/
structure FileBrowser where
  entries : List String
  selection : Nat
  deriving DecidableEq

/-- Python's `%` on integers (floored modulus, which is what `%` denotes on
Lean's `Int`). -/
def pymod (a b : Int) : Int := a % b

/-- The sort key of `FileBrowser.refresh` (line 280): directories first, then
case-insensitive name. -/
def entryKey (n : String) : Nat × String :=
  (if strHasSuffix "/" n then 0 else 1, lowerStr n)

/-- Comparison on entry sort keys. -/
def entryLe (a b : String) : Bool :=
  (entryKey a).1 < (entryKey b).1 ||
    ((entryKey a).1 == (entryKey b).1 && decide ((entryKey a).2 ≤ (entryKey b).2))

/-- Insertion step of the sort. -/
def insertSorted (x : String) : List String → List String
  | [] => [x]
  | y :: ys => if entryLe x y then x :: y :: ys else y :: insertSorted x ys

/-- `items.sort(key=lambda n: (not n.endswith("/"), n.lower()))`, modelled as
an insertion sort on the same key (no property below depends on the sorting
algorithm, only on the resulting entry list). -/
def sortEntries (items : List String) : List String :=
  items.foldr insertSorted []

/-- `FileBrowser.refresh` (lines 267–283): install the sorted listing
(`items` is the filtered directory listing, an external input) and clamp an
out-of-range selection to `max 0 (len - 1)` (natural subtraction). -/
def FileBrowser.refresh (b : FileBrowser) (items : List String) : FileBrowser :=
  if b.selection ≥ (sortEntries items).length then
    { entries := sortEntries items, selection := (sortEntries items).length - 1 }
  else
    { entries := sortEntries items, selection := b.selection }

/-- `FileBrowser.up` (lines 297–298). -/
def FileBrowser.up (b : FileBrowser) : FileBrowser :=
  { b with selection :=
      (pymod ((b.selection : Int) - 1) ((max 1 b.entries.length : Nat) : Int)).toNat }

/-- `FileBrowser.down` (lines 300–301). -/
def FileBrowser.down (b : FileBrowser) : FileBrowser :=
  { b with selection :=
      (pymod ((b.selection : Int) + 1) ((max 1 b.entries.length : Nat) : Int)).toNat }

/-- `FileBrowser.enter` (lines 285–295): nothing on an empty listing; on a
directory, reset the selection and refresh with the new directory's listing
`sub`; on a file, return its name. -/
def FileBrowser.enter (b : FileBrowser) (sub : List String) :
    Option String × FileBrowser :=
  match b.entries.getD b.selection "", b.entries with
  | _, [] => (none, b)
  | name, _ :: _ =>
    if strHasSuffix "/" name then
      (none, FileBrowser.refresh { b with selection := 0 } sub)
    else (some name, b)

/-- `FileBrowser.parent` (lines 303–308): when a distinct parent directory
exists, reset the selection and refresh with its listing. -/
def FileBrowser.parent (b : FileBrowser) (hasParent : Bool)
    (parentItems : List String) : FileBrowser :=
  if hasParent then FileBrowser.refresh { b with selection := 0 } parentItems
  else b

/-- The selection-index invariant of the browser: on an empty listing the
selection is `0`, on a non-empty one it indexes a valid entry. -/
def inRange (b : FileBrowser) : Prop :=
  (b.entries = [] → b.selection = 0) ∧
  (b.entries ≠ [] → b.selection < b.entries.length)

instance (b : FileBrowser) : Decidable (inRange b) := by
  unfold inRange; infer_instance

/-! ### The session controller's field-edit step -/

/-- The fixed nine-field catalog (lines 28–38). -/
def DEFAULT_FIELDS : List (String × String) :=
  [("title", "Title"), ("artist", "Artist"), ("album", "Album"),
   ("albumartist", "Album Artist"), ("tracknumber", "Track"),
   ("discnumber", "Disc"), ("date", "Year"), ("genre", "Genre"),
   ("comment", "Comment")]

/-- The session controller's editable state: the field map (`self.tags`) and
the dirty flag. -/
structure TuiState where
  tags : List (String × String)
  dirty : Bool
  deriving DecidableEq

/-- `Tui.edit_field` (lines 369–378).  The text-input modal is seeded with
the field's current value and resolves externally; `modal` is its result
(`none` = cancelled).  A confirmed value different from the current one is
applied and marks the record dirty; cancellation or an unchanged value
leaves the state untouched. -/
def Tui.edit_field (st : TuiState) (idx : Nat) (modal : Option String) : TuiState :=
  if h : idx < DEFAULT_FIELDS.length then
    let key := (DEFAULT_FIELDS.get ⟨idx, h⟩).1
    let value := (alookup key st.tags).getD ""
    match modal with
    | none => st
    | some nv =>
        if nv ≠ value then { tags := ainsert key nv st.tags, dirty := true }
        else st
  else st

/-! ## Association-list lemmas -/

theorem alookup_aerase_self {β : Type} (k : String) (m : List (String × β)) :
    alookup k (aerase k m) = none := by
  induction m with
  | nil => rfl
  | cons p rest ih =>
    obtain ⟨k', v⟩ := p
    by_cases hk : k' = k
    · simp [aerase, hk, ih]
    · simp [aerase, alookup, hk, ih]

theorem amem_aerase_self {β : Type} (k : String) (m : List (String × β)) :
    amem k (aerase k m) = false := by
  induction m with
  | nil => rfl
  | cons p rest ih =>
    obtain ⟨k', v⟩ := p
    by_cases hk : k' = k
    · simp [aerase, hk, ih]
    · simp [aerase, amem, hk, ih]

theorem alookup_append_left {β : Type} (k : String) (m₁ m₂ : List (String × β))
    (h : alookup k m₁ = none) : alookup k (m₁ ++ m₂) = alookup k m₂ := by
  induction m₁ with
  | nil => rfl
  | cons p rest ih =>
    obtain ⟨k', v⟩ := p
    by_cases hk : k' = k
    · simp [alookup, hk] at h
    · simp [alookup, hk] at h ⊢
      exact ih h

theorem alookup_ainsert_self {β : Type} (k : String) (v : β)
    (m : List (String × β)) : alookup k (ainsert k v m) = some v := by
  unfold ainsert
  rw [alookup_append_left k _ _ (alookup_aerase_self k m)]
  simp [alookup]

theorem alookup_none_of_amem_false {β : Type} (k : String)
    (m : List (String × β)) (h : amem k m = false) : alookup k m = none := by
  induction m with
  | nil => rfl
  | cons p rest ih =>
    obtain ⟨k', v⟩ := p
    by_cases hk : k' = k
    · simp [amem, hk] at h
    · simp [amem, hk] at h
      simp [alookup, hk, ih h]

theorem writeRaw_easy (r : Raw) (d : Disk) : (writeRaw r d).easy = d.easy := by
  cases r with
  | flac ps => rfl
  | mp4 t => rfl
  | ogg t => rfl
  | id3 t => cases t <;> rfl
  | nofile => rfl

/-! ## C1 — SetField semantics -/

/-- C1 counterexample: `comment` is one of the nine catalog fields, and an
MP3 (frame-tagged) handle is supported, but mutagen's `EasyID3` view does
not register `comment`: the assignment raises and the `except: pass` at
lines 87–89 silently discards it, so `SetField("comment", "hi")` leaves the
tag structure unchanged and the field does not hold `["hi"]` afterwards —
refuting the claim's universal replaces-with-`[v]` conjunct. -/
theorem c1_counterexample :
    ("comment", "Comment") ∈ DEFAULT_FIELDS ∧
    (⟨some [], .id3 (some [])⟩ : Handle).audio ≠ none ∧
    easyID3Accepts "comment" = false ∧
    TagEditor.set easyID3Accepts ⟨some [], .id3 (some [])⟩
        ⟨[], .id3 (some []), none⟩ "comment" "hi" =
      (⟨some [], .id3 (some [])⟩, ⟨[], .id3 (some []), none⟩) ∧
    TagEditor.get (TagEditor.set easyID3Accepts ⟨some [], .id3 (some [])⟩
        ⟨[], .id3 (some []), none⟩ "comment" "hi").1 "comment" ≠ ["hi"] := by
  refine ⟨by decide, by decide, by decide, rfl, by decide⟩

/-- C1 amended: on a supported handle, `SetField` with the empty string
removes the key entirely from the in-memory tag structure (absent
afterwards); `SetField` with a non-empty `v` rebinds the field to exactly
`[v]` when the format's easy view accepts the field, and is a silent no-op
when the view rejects it (the source swallows the rejection, as spec §9
documents); neither call changes the on-disk state. -/
theorem c1_setfield_semantics (accepts : String → Bool) (h : Handle)
    (d : Disk) (m : TagMap) (k v : String) (hm : h.audio = some m)
    (hv : v ≠ "") :
    fieldAbsent (TagEditor.set accepts h d k "").1 k = true ∧
    (accepts k = true →
      (TagEditor.set accepts h d k v).1.audio = some (ainsert k [v] m) ∧
      TagEditor.get (TagEditor.set accepts h d k v).1 k = [v]) ∧
    (accepts k = false → TagEditor.set accepts h d k v = (h, d)) ∧
    (TagEditor.set accepts h d k "").2 = d ∧
    (TagEditor.set accepts h d k v).2 = d := by
  refine ⟨?_, ?_, ?_, ?_, ?_⟩
  · by_cases hmem : amem k m = true
    · simp [TagEditor.set, hm, hmem, fieldAbsent, amem_aerase_self]
    · simp [TagEditor.set, hm, hmem, fieldAbsent]
  · intro hacc
    constructor
    · simp [TagEditor.set, hm, hv, hacc]
    · simp [TagEditor.get, TagEditor.set, hm, hv, hacc, normalize_value,
        alookup_ainsert_self]
  · intro hacc
    simp [TagEditor.set, hm, hv, hacc]
  · by_cases hmem : amem k m = true <;> simp [TagEditor.set, hm, hmem]
  · by_cases hacc : accepts k = true <;> simp [TagEditor.set, hm, hv, hacc]

/-- C1 amended witness: on a concrete MP3 handle holding `artist = ["Old"]`
(a field `EasyID3` accepts), clearing removes the key, setting replaces the
value with `["New"]`, and the disk is untouched. -/
theorem c1_setfield_semantics_witness :
    fieldAbsent (TagEditor.set easyID3Accepts
      ⟨some [("artist", ["Old"])], .id3 (some [])⟩
      ⟨[("artist", ["Old"])], .id3 (some []), none⟩ "artist" "").1 "artist" = true ∧
    TagEditor.get (TagEditor.set easyID3Accepts
      ⟨some [("artist", ["Old"])], .id3 (some [])⟩
      ⟨[("artist", ["Old"])], .id3 (some []), none⟩ "artist" "New").1 "artist" = ["New"] ∧
    (TagEditor.set easyID3Accepts
      ⟨some [("artist", ["Old"])], .id3 (some [])⟩
      ⟨[("artist", ["Old"])], .id3 (some []), none⟩ "artist" "New").2 =
      ⟨[("artist", ["Old"])], .id3 (some []), none⟩ := by
  have hc := c1_setfield_semantics easyID3Accepts
    ⟨some [("artist", ["Old"])], .id3 (some [])⟩
    ⟨[("artist", ["Old"])], .id3 (some []), none⟩
    [("artist", ["Old"])] "artist" "New" rfl (by decide)
  exact ⟨hc.1, (hc.2.1 (by decide)).2, hc.2.2.2.2⟩

/-! ## C2 — Save failure and the on-disk state -/

/-- C2 counterexample: a handle whose in-memory raw tags differ from the disk
(reachable when an earlier eager cover save raised and was caught, e.g. a
transient full disk in `set_cover`).  `Save` first runs `raw.save()`
(successfully, updating the disk) and then fails in `audio.save()`: the
result is a non-Ok status, yet the on-disk content is no longer what it was
before the call — refuting the claim as stated. -/
theorem c2_counterexample :
    (TagEditor.save
        ⟨some [("artist", ["New"])], .ogg (some [("metadata_block_picture", ["AAAA"])])⟩
        ⟨[("artist", ["Old"])], .ogg (some []), none⟩
        none (some "No space left on device")).1.1 = false ∧
    (TagEditor.save
        ⟨some [("artist", ["New"])], .ogg (some [("metadata_block_picture", ["AAAA"])])⟩
        ⟨[("artist", ["Old"])], .ogg (some []), none⟩
        none (some "No space left on device")).2 ≠
      (⟨[("artist", ["Old"])], .ogg (some []), none⟩ : Disk) := by
  constructor
  · rfl
  · decide

/-- C2 amended: whenever `Save` fails it returns a non-Ok status carrying the
underlying reason, and the failing easy-tag write leaves the easy text tags
on disk unchanged; however the raw-tag save performed first may already have
updated the on-disk raw structures, so the whole file content is not
guaranteed to be what it was before the call. -/
theorem c2_save_failure_reporting (h : Handle) (d : Disk) (m : TagMap)
    (re : Option String) (e : String) (hm : h.audio = some m) :
    (TagEditor.save h d re (some e)).1 = (false, some e) ∧
    ((TagEditor.save h d re (some e)).2).easy = d.easy := by
  cases re with
  | none => exact ⟨by simp [TagEditor.save, hm], by simp [TagEditor.save, hm, writeRaw_easy]⟩
  | some r => exact ⟨by simp [TagEditor.save, hm], by simp [TagEditor.save, hm]⟩

/-- C2 amended witness: a concrete failing save reports the reason and leaves
the on-disk easy tags unchanged. -/
theorem c2_save_failure_reporting_witness :
    let h : Handle := ⟨some [("artist", ["New"])], .ogg (some [])⟩
    let d : Disk := ⟨[("artist", ["Old"])], .ogg (some []), none⟩
    (TagEditor.save h d none (some "disk full")).1 = (false, some "disk full") ∧
    ((TagEditor.save h d none (some "disk full")).2).easy = [("artist", ["Old"])] :=
  c2_save_failure_reporting _ _ [("artist", ["New"])] none "disk full" rfl

/-! ## C3 — Unsupported-format safety -/

/-- C3: on a handle whose container kind is unsupported (`audio = none`),
`SetField` is a no-op on both the handle and the disk, `Save` returns the
`UnsupportedFormat` failure status (`"Unsupported file format"`) and leaves
the disk byte-for-byte unchanged, and `GetField` returns the empty sequence.
(`Open` itself is total in the model: an unrecognized file yields the
`audio = none` handle rather than an exception.) -/
theorem c3_unsupported_noop (accepts : String → Bool) (h : Handle) (d : Disk)
    (k v : String) (re ae : Option String) (hu : h.audio = none) :
    TagEditor.set accepts h d k v = (h, d) ∧
    TagEditor.save h d re ae = ((false, some "Unsupported file format"), d) ∧
    TagEditor.get h k = [] := by
  refine ⟨?_, ?_, ?_⟩ <;> simp [TagEditor.set, TagEditor.save, TagEditor.get, hu]

/-- C3 witness: a concrete unsupported handle (e.g. a `.txt` file). -/
theorem c3_unsupported_noop_witness :
    let h : Handle := ⟨none, .nofile⟩
    let d : Disk := ⟨[], .nofile, none⟩
    TagEditor.set easyID3Accepts h d "artist" "X" = (h, d) ∧
    TagEditor.save h d none none = ((false, some "Unsupported file format"), d) ∧
    TagEditor.get h "artist" = [] :=
  c3_unsupported_noop easyID3Accepts _ _ "artist" "X" none none rfl

/-! ## C8 — GetField totality on absent fields -/

/-- C8: `GetField` returns an ordered sequence of strings; when the field is
absent from the tag structure (or the handle is unsupported) it returns the
empty sequence.  The function is total — the source's `try/except` around
the lookup means a merely-missing field never raises. -/
theorem c8_getfield_absent (h : Handle) (k : String)
    (habs : fieldAbsent h k = true) : TagEditor.get h k = [] := by
  unfold TagEditor.get
  unfold fieldAbsent at habs
  cases hm : h.audio with
  | none => rfl
  | some m =>
    rw [hm] at habs
    simp at habs
    simp [alookup_none_of_amem_false k m habs, normalize_value]

/-- C8 witness: looking up a field missing from a concrete supported handle
yields `[]`. -/
theorem c8_getfield_absent_witness :
    TagEditor.get ⟨some [("title", ["T"])], .flac []⟩ "comment" = [] :=
  c8_getfield_absent ⟨some [("title", ["T"])], .flac []⟩ "comment" (by decide)

/-! ## Further association-list lemmas -/

theorem aerase_append {β : Type} (k : String) (m₁ m₂ : List (String × β)) :
    aerase k (m₁ ++ m₂) = aerase k m₁ ++ aerase k m₂ := by
  induction m₁ with
  | nil => rfl
  | cons p rest ih =>
    obtain ⟨k', v⟩ := p
    by_cases hk : k' = k <;> simp [aerase, hk, ih]

theorem aerase_aerase_self {β : Type} (k : String) (m : List (String × β)) :
    aerase k (aerase k m) = aerase k m := by
  induction m with
  | nil => rfl
  | cons p rest ih =>
    obtain ⟨k', v⟩ := p
    by_cases hk : k' = k <;> simp [aerase, hk, ih]

theorem amem_aerase_ne {β : Type} (k k' : String) (m : List (String × β))
    (hne : k ≠ k') : amem k (aerase k' m) = amem k m := by
  induction m with
  | nil => rfl
  | cons p rest ih =>
    obtain ⟨a, v⟩ := p
    by_cases ha : a = k'
    · subst ha
      simp [aerase, amem, Ne.symm hne, ih]
    · simp only [aerase, if_neg ha]
      simp [amem, ih]

theorem aerase_eq_of_amem_false {β : Type} (k : String) (m : List (String × β))
    (h : amem k m = false) : aerase k m = m := by
  induction m with
  | nil => rfl
  | cons p rest ih =>
    obtain ⟨a, v⟩ := p
    by_cases ha : a = k
    · simp [amem, ha] at h
    · simp [amem, ha] at h
      simp [aerase, ha, ih h]

theorem ainsert_idem {β : Type} (k : String) (v : β) (m : List (String × β)) :
    ainsert k v (ainsert k v m) = ainsert k v m := by
  unfold ainsert
  rw [aerase_append, aerase_aerase_self]
  simp [aerase]

theorem alookup_aerase_ne {β : Type} (k k' : String) (m : List (String × β))
    (hne : k ≠ k') : alookup k (aerase k' m) = alookup k m := by
  induction m with
  | nil => rfl
  | cons p rest ih =>
    obtain ⟨a, v⟩ := p
    by_cases ha : a = k'
    · subst ha
      simp [aerase, alookup, Ne.symm hne, ih]
    · simp only [aerase, if_neg ha]
      simp [alookup, ih]

theorem alookup_append_some {β : Type} (k : String) (m₁ m₂ : List (String × β))
    (w : β) (h : alookup k m₁ = some w) : alookup k (m₁ ++ m₂) = some w := by
  induction m₁ with
  | nil => simp [alookup] at h
  | cons p rest ih =>
    obtain ⟨a, v⟩ := p
    by_cases ha : a = k
    · simp [alookup, ha] at h ⊢
      exact h
    · simp [alookup, ha] at h ⊢
      exact ih h

theorem alookup_ainsert_ne {β : Type} (k k' : String) (v : β)
    (m : List (String × β)) (hne : k ≠ k') :
    alookup k (ainsert k' v m) = alookup k m := by
  unfold ainsert
  have h := alookup_aerase_ne k k' m hne
  cases hl : alookup k (aerase k' m) with
  | some w =>
    rw [alookup_append_some k _ _ w hl, ← h, hl]
  | none =>
    rw [alookup_append_left k _ _ hl, ← h, hl]
    simp [alookup, Ne.symm hne]

theorem filter_self_idem {α : Type} (p : α → Bool) (l : List α) :
    (l.filter p).filter p = l.filter p := by
  induction l with
  | nil => rfl
  | cons x xs ih =>
    by_cases hx : p x = true <;> simp [List.filter_cons, hx, ih]

/-! ## C4 — picture-type codes -/

/-- C4 counterexample: a FLAC handle whose only embedded picture has type
code 4 (back cover) — no type-3 picture exists — yet `HasCover` is true and
`CoverInfo` reports that picture: the read path takes the first picture
regardless of its type code, refuting the claim that only type-3 pictures
are read. -/
theorem c4_counterexample :
    (∀ p ∈ ([⟨4, "image/jpeg", "back cover", [1, 2, 3]⟩] : List Pic), p.ptype ≠ 3) ∧
    TagEditor.has_cover ⟨some [], .flac [⟨4, "image/jpeg", "back cover", [1, 2, 3]⟩]⟩ = true ∧
    TagEditor.get_cover_info ⟨some [], .flac [⟨4, "image/jpeg", "back cover", [1, 2, 3]⟩]⟩ =
      some "FLAC picture: image/jpeg (3 bytes)" := by
  refine ⟨by decide, rfl, rfl⟩

/-- C4 amended: every cover image the system writes carries picture-type
code 3 — the FLAC picture block, the picture block embedded in the Ogg
`metadata_block_picture` value, and the ID3 APIC frame all have type 3 (the
MP4 atom has no type code) — but on the read side, for every container
kind, `CoverInfo`/`HasCover` report the first embedded picture regardless
of its picture-type code: an arbitrary-type FLAC picture, an
arbitrary-content APIC frame, an arbitrary (even undecodable)
`metadata_block_picture` value, and the first MP4 `covr` entry are all
reported as the cover. -/
theorem c4_front_cover_codes (h : Handle) (d : Disk) (data : List Nat)
    (path : String) (se : Option String) :
    (∀ ps, h.raw = .flac ps →
      (TagEditor.set_cover h d (.ok data) path se).2.1.raw =
        .flac [⟨3, inferMime path, "cover", data⟩]) ∧
    (∀ t, h.raw = .ogg t →
      ∃ t', (TagEditor.set_cover h d (.ok data) path se).2.1.raw = .ogg (some t') ∧
        alookup "metadata_block_picture" t' =
          some [(⟨b64EncodeL (picWrite ⟨3, inferMime path, "cover", data⟩)⟩ : String)]) ∧
    (∀ t, h.raw = .id3 t → se = none →
      (TagEditor.set_cover h d (.ok data) path se).2.2.id3f =
        some (((d.id3f.getD []).filter fun p => !(strHasPrefix "APIC" p.1)) ++
          [("APIC:cover", Frame.apic ⟨3, inferMime path, 3, "cover", data⟩)])) ∧
    (∀ au p ps, TagEditor.has_cover ⟨au, .flac (p :: ps)⟩ = true) ∧
    (∀ au (a : ApicFrame) t,
      TagEditor.has_cover ⟨au, .id3 (some (("APIC:cover", Frame.apic a) :: t))⟩ = true) ∧
    (∀ au (s : String) t,
      TagEditor.has_cover ⟨au, .ogg (some (("metadata_block_picture", [s]) :: t))⟩ = true) ∧
    (∀ au (c : MP4CoverItem) cs t,
      TagEditor.has_cover ⟨au, .mp4 (some (("covr", c :: cs) :: t))⟩ = true) := by
  refine ⟨?_, ?_, ?_, ?_, ?_, ?_, ?_⟩
  · intro ps hf
    cases se <;> simp [TagEditor.set_cover, hf]
  · intro t ht
    refine ⟨ainsert "metadata_block_picture"
      [(⟨b64EncodeL (picWrite ⟨3, inferMime path, "cover", data⟩)⟩ : String)]
      (aerase "coverartmime" (aerase "coverart" (t.getD []))), ?_, ?_⟩
    · cases se <;> simp [TagEditor.set_cover, ht]
    · exact alookup_ainsert_self _ _ _
  · intro t ht hse
    subst hse
    simp [TagEditor.set_cover, ht]
  · intro au p ps
    simp [TagEditor.has_cover, TagEditor.get_cover_info]
  · intro au a t
    have hpre : strHasPrefix "APIC" "APIC:cover" = true := rfl
    simp [TagEditor.has_cover, TagEditor.get_cover_info, apicsOf,
      List.filterMap_cons, hpre]
  · intro au s t
    cases hdec : b64DecodeL s.data <;>
      simp [TagEditor.has_cover, TagEditor.get_cover_info, alookup, hdec]
  · intro au c cs t
    simp [TagEditor.has_cover, TagEditor.get_cover_info, alookup]

/-- C4 amended witness: setting a cover on a concrete FLAC handle writes the
single type-3 picture; a concrete FLAC file whose first picture has type
code 4 and a concrete MP3 whose first APIC frame has type code 4 are both
reported as having a cover. -/
theorem c4_front_cover_codes_witness :
    (TagEditor.set_cover ⟨some [], .flac []⟩ ⟨[], .flac [], none⟩ (.ok [9, 9])
        "c.PNG" none).2.1.raw = .flac [⟨3, inferMime "c.PNG", "cover", [9, 9]⟩] ∧
    TagEditor.has_cover ⟨some [], .flac [⟨4, "image/jpeg", "x", []⟩]⟩ = true ∧
    TagEditor.has_cover ⟨some [], .id3 (some [("APIC:cover",
      Frame.apic ⟨3, "image/jpeg", 4, "x", []⟩)])⟩ = true :=
  ⟨(c4_front_cover_codes ⟨some [], .flac []⟩ ⟨[], .flac [], none⟩ [9, 9] "c.PNG" none).1 [] rfl,
   (c4_front_cover_codes ⟨some [], .flac []⟩ ⟨[], .flac [], none⟩ [9, 9] "c.PNG" none).2.2.2.1
     (some []) ⟨4, "image/jpeg", "x", []⟩ [],
   (c4_front_cover_codes ⟨some [], .flac []⟩ ⟨[], .flac [], none⟩ [9, 9] "c.PNG" none).2.2.2.2.1
     (some []) ⟨3, "image/jpeg", 4, "x", []⟩ []⟩

/-! ## C5 — Ogg legacy cover keys -/

/-- C5: on a comment-block-tagged (Vorbis/Opus) handle, a successful
`SetCover` deletes both legacy keys `coverart` and `coverartmime` and writes
the image only under `metadata_block_picture`, as the Base64 encoding of a
front-cover picture block; afterwards the legacy pair is absent from both
the in-memory tags and the saved disk tags. -/
theorem c5_ogg_legacy_pair_removed (h : Handle) (d : Disk) (t : Option TagMap)
    (data : List Nat) (path : String) (ht : h.raw = .ogg t) :
    ∃ t',
      TagEditor.set_cover h d (.ok data) path none =
        ((true, none), { h with raw := .ogg (some t') },
          { d with raw := .ogg (some t') }) ∧
      alookup "coverart" t' = none ∧
      alookup "coverartmime" t' = none ∧
      alookup "metadata_block_picture" t' =
        some [(⟨b64EncodeL (picWrite ⟨3, inferMime path, "cover", data⟩)⟩ : String)] := by
  refine ⟨ainsert "metadata_block_picture"
      [(⟨b64EncodeL (picWrite ⟨3, inferMime path, "cover", data⟩)⟩ : String)]
      (aerase "coverartmime" (aerase "coverart" (t.getD []))), ?_, ?_, ?_, ?_⟩
  · simp [TagEditor.set_cover, ht]
  · rw [alookup_ainsert_ne _ _ _ _ (by decide),
        alookup_aerase_ne _ _ _ (by decide), alookup_aerase_self]
  · rw [alookup_ainsert_ne _ _ _ _ (by decide), alookup_aerase_self]
  · exact alookup_ainsert_self _ _ _

/-- C5 witness: a concrete Ogg handle that carries the legacy pair before the
call; after `SetCover` both legacy keys are gone and only the preferred key
holds the picture. -/
theorem c5_ogg_legacy_pair_removed_witness :
    ∃ t',
      TagEditor.set_cover ⟨some [], .ogg (some [("coverart", ["QUJD"]), ("coverartmime", ["image/png"])])⟩
          ⟨[], .ogg (some []), none⟩ (.ok [1, 2]) "c.png" none =
        ((true, none),
          { audio := some [], raw := .ogg (some t') },
          { easy := [], raw := .ogg (some t'), id3f := none }) ∧
      alookup "coverart" t' = none ∧
      alookup "coverartmime" t' = none ∧
      alookup "metadata_block_picture" t' =
        some [(⟨b64EncodeL (picWrite ⟨3, inferMime "c.png", "cover", [1, 2]⟩)⟩ : String)] :=
  c5_ogg_legacy_pair_removed
    ⟨some [], .ogg (some [("coverart", ["QUJD"]), ("coverartmime", ["image/png"])])⟩
    ⟨[], .ogg (some []), none⟩
    (some [("coverart", ["QUJD"]), ("coverartmime", ["image/png"])]) [1, 2] "c.png" rfl

/-! ## C6 — ClearCover idempotence -/

/-- C6: on every supported handle with no embedded cover and a succeeding
underlying save, `ClearCover` returns Ok; calling it twice in a row returns
Ok both times, and the second call is a no-op — it leaves the handle and the
disk exactly as the first call left them.  On the frame-tagged path, when
the file has no ID3 tag header at all, `ClearCover` is a successful no-op
that changes nothing. -/
theorem c6_clearcover_idempotent (h : Handle) (d : Disk)
    (hsupp : h.raw ≠ Raw.nofile) (hnc : TagEditor.has_cover h = false) :
    (TagEditor.clear_cover h d none).1 = (true, none) ∧
    TagEditor.clear_cover (TagEditor.clear_cover h d none).2.1
        (TagEditor.clear_cover h d none).2.2 none =
      ((true, none), (TagEditor.clear_cover h d none).2.1,
        (TagEditor.clear_cover h d none).2.2) ∧
    (∀ t, h.raw = .id3 t → d.id3f = none →
      TagEditor.clear_cover h d none = ((true, none), h, d)) := by
  obtain ⟨au, raw⟩ := h
  cases raw with
  | flac ps =>
    refine ⟨rfl, ?_, ?_⟩
    · simp [TagEditor.clear_cover]
    · intro t ht; simp at ht
  | mp4 t =>
    refine ⟨rfl, ?_, ?_⟩
    · simp [TagEditor.clear_cover, ainsert_idem]
    · intro t' ht; simp at ht
  | ogg t =>
    cases t with
    | none =>
      refine ⟨rfl, ?_, ?_⟩
      · simp [TagEditor.clear_cover]
      · intro t' ht; simp at ht
    | some tm =>
      refine ⟨rfl, ?_, ?_⟩
      · have h1 : amem "metadata_block_picture"
            (aerase "coverartmime" (aerase "coverart"
              (aerase "metadata_block_picture" tm))) = false := by
          rw [amem_aerase_ne _ _ _ (by decide), amem_aerase_ne _ _ _ (by decide),
            amem_aerase_self]
        have h2 : amem "coverart"
            (aerase "coverartmime" (aerase "coverart"
              (aerase "metadata_block_picture" tm))) = false := by
          rw [amem_aerase_ne _ _ _ (by decide), amem_aerase_self]
        have h3 : amem "coverartmime"
            (aerase "coverartmime" (aerase "coverart"
              (aerase "metadata_block_picture" tm))) = false := amem_aerase_self _ _
        simp only [TagEditor.clear_cover]
        rw [aerase_eq_of_amem_false _ _ h1, aerase_eq_of_amem_false _ _ h2,
          aerase_eq_of_amem_false _ _ h3]
      · intro t' ht; simp at ht
  | id3 t =>
    cases hd : d.id3f with
    | none =>
      refine ⟨by simp [TagEditor.clear_cover, hd], ?_, ?_⟩
      · simp [TagEditor.clear_cover, hd]
      · intro t' ht hdn; simp [TagEditor.clear_cover, hd]
    | some frames =>
      refine ⟨by simp [TagEditor.clear_cover, hd], ?_, ?_⟩
      · simp [TagEditor.clear_cover, hd, filter_self_idem]
      · intro t' ht hdn
        exact Option.noConfusion hdn
  | nofile => exact absurd rfl hsupp

/-- C6 witness: a concrete cover-less Ogg handle (Ok twice, second call a
no-op) and a concrete frame-tagged file with no ID3 header (successful no-op
that changes nothing). -/
theorem c6_clearcover_idempotent_witness :
    (TagEditor.clear_cover ⟨some [], .ogg (some [("title", ["x"])])⟩
        ⟨[], .ogg (some [("title", ["x"])]), none⟩ none).1 = (true, none) ∧
    TagEditor.clear_cover ⟨some [], .id3 none⟩ ⟨[], .id3 none, none⟩ none =
      ((true, none), ⟨some [], .id3 none⟩, ⟨[], .id3 none, none⟩) :=
  ⟨(c6_clearcover_idempotent ⟨some [], .ogg (some [("title", ["x"])])⟩
      ⟨[], .ogg (some [("title", ["x"])]), none⟩ (by decide) (by decide)).1,
   (c6_clearcover_idempotent ⟨some [], .id3 none⟩ ⟨[], .id3 none, none⟩
      (by decide) (by decide)).2.2 none rfl rfl⟩

/-! ## C7 — MIME inference from the extension -/

/-- C7: the MIME type `SetCover` uses is inferred from the file extension
through the fixed table, case-insensitively — it depends only on the
lower-cased extension — and defaults to `image/jpeg` whenever the extension
is unrecognized or absent (a recognized non-image extension is likewise
coerced to `image/jpeg`). -/
theorem c7_mime_inference :
    (∀ p q : String, lowerStr (extOf p) = lowerStr (extOf q) →
      inferMime p = inferMime q) ∧
    (∀ p : String, guess_type p = none → inferMime p = "image/jpeg") ∧
    inferMime "cover.jpg" = "image/jpeg" ∧
    inferMime "cover.JPEG" = "image/jpeg" ∧
    inferMime "art.PnG" = "image/png" ∧
    inferMime "art.webp" = "image/webp" ∧
    inferMime "art.BMP" = "image/bmp" ∧
    inferMime "notes.txt" = "image/jpeg" ∧
    inferMime "noextension" = "image/jpeg" := by
  refine ⟨?_, ?_, ?_, ?_, ?_, ?_, ?_, ?_, ?_⟩
  · intro p q hpq
    simp only [inferMime, guess_type, hpq]
  · intro p hp
    simp only [inferMime, hp]
  all_goals rfl

/-- C7 witness: case-insensitivity and the default, at concrete inputs. -/
theorem c7_mime_inference_witness :
    inferMime "a.PNG" = inferMime "a.png" ∧ inferMime "file.weird" = "image/jpeg" :=
  ⟨c7_mime_inference.1 "a.PNG" "a.png" (by decide),
   c7_mime_inference.2.1 "file.weird" (by decide)⟩

/-! ## C9 — the field-edit interaction -/

/-- C9: when the text-input modal (seeded with the field's current value)
resolves to cancellation or to a value equal to the current one, the
editable record and the dirty flag are unchanged; when it resolves to a
different value, that field is set to the new value and the state becomes
dirty. -/
theorem c9_edit_field (st : TuiState) (idx : Nat)
    (hidx : idx < DEFAULT_FIELDS.length) :
    Tui.edit_field st idx none = st ∧
    Tui.edit_field st idx
      (some ((alookup (DEFAULT_FIELDS.get ⟨idx, hidx⟩).1 st.tags).getD "")) = st ∧
    (∀ nv, nv ≠ (alookup (DEFAULT_FIELDS.get ⟨idx, hidx⟩).1 st.tags).getD "" →
      (Tui.edit_field st idx (some nv)).dirty = true ∧
      alookup (DEFAULT_FIELDS.get ⟨idx, hidx⟩).1
        (Tui.edit_field st idx (some nv)).tags = some nv) := by
  refine ⟨?_, ?_, ?_⟩
  · simp [Tui.edit_field, hidx]
  · simp [Tui.edit_field, hidx]
  · intro nv hnv
    simp only [List.get_eq_getElem] at hnv
    constructor
    · simp [Tui.edit_field, hidx, hnv]
    · simp [Tui.edit_field, hidx, hnv, alookup_ainsert_self]

/-- C9 witness: editing the `artist` field of a concrete state — cancel and
unchanged-value leave it untouched, a new value lands in the record and
marks it dirty. -/
theorem c9_edit_field_witness :
    Tui.edit_field ⟨[("artist", "Old")], false⟩ 1 none = ⟨[("artist", "Old")], false⟩ ∧
    Tui.edit_field ⟨[("artist", "Old")], false⟩ 1 (some "Old") = ⟨[("artist", "Old")], false⟩ ∧
    (Tui.edit_field ⟨[("artist", "Old")], false⟩ 1 (some "New")).dirty = true ∧
    alookup "artist" (Tui.edit_field ⟨[("artist", "Old")], false⟩ 1 (some "New")).tags =
      some "New" := by
  have h := c9_edit_field ⟨[("artist", "Old")], false⟩ 1 (by decide)
  exact ⟨h.1, h.2.1, (h.2.2 "New" (by decide)).1, (h.2.2 "New" (by decide)).2⟩

/-! ## C10 — browser selection invariant -/

theorem toNat_pymod_lt (a : Int) (n : Nat) (hn : 0 < n) :
    (pymod a n).toNat < n := by
  have h0 : (0 : Int) < (n : Int) := by exact_mod_cast hn
  have h1 := Int.emod_nonneg a (ne_of_gt h0)
  have h2 := Int.emod_lt_of_pos a h0
  unfold pymod
  omega

theorem inRange_up (b : FileBrowser) : inRange b.up := by
  unfold inRange
  cases hbe : b.entries with
  | nil =>
    constructor
    · intro _
      simp [FileBrowser.up, hbe, pymod]
    · intro hne
      simp [FileBrowser.up, hbe] at hne
  | cons x xs =>
    constructor
    · intro he
      simp [FileBrowser.up, hbe] at he
    · intro _
      have hlen : 0 < b.entries.length := by simp [hbe]
      show (pymod ((b.selection : Int) - 1) ((max 1 b.entries.length : Nat) : Int)).toNat <
        b.entries.length
      rw [Nat.max_eq_right hlen]
      exact toNat_pymod_lt _ _ hlen

theorem inRange_down (b : FileBrowser) : inRange b.down := by
  unfold inRange
  cases hbe : b.entries with
  | nil =>
    constructor
    · intro _
      simp [FileBrowser.down, hbe, pymod]
    · intro hne
      simp [FileBrowser.down, hbe] at hne
  | cons x xs =>
    constructor
    · intro he
      simp [FileBrowser.down, hbe] at he
    · intro _
      have hlen : 0 < b.entries.length := by simp [hbe]
      show (pymod ((b.selection : Int) + 1) ((max 1 b.entries.length : Nat) : Int)).toNat <
        b.entries.length
      rw [Nat.max_eq_right hlen]
      exact toNat_pymod_lt _ _ hlen

theorem inRange_refresh (b : FileBrowser) (items : List String) :
    inRange (b.refresh items) := by
  unfold FileBrowser.refresh inRange
  by_cases hge : b.selection ≥ (sortEntries items).length
  · rw [if_pos hge]
    constructor
    · intro he
      simp at he
      simp [he]
    · intro hne
      have hpos : 0 < (sortEntries items).length :=
        List.length_pos.mpr (by simpa using hne)
      simpa using Nat.sub_lt hpos Nat.one_pos
  · rw [if_neg hge]
    constructor
    · intro he
      exfalso
      apply hge
      simp at he
      simp [he]
    · intro _
      simpa using Nat.lt_of_not_ge hge

/-- C10: the browser's selection stays in range across every operation —
`up`/`down` (which wrap cyclically modulo the entry count), `refresh` (which
clamps an out-of-range selection back into range, from any prior state),
`enter` and `parent`; on an empty listing the selection is `0`. -/
theorem c10_browser_selection_invariant (b : FileBrowser)
    (items sub pitems : List String) (hp : Bool) (hb : inRange b) :
    (∀ b' : FileBrowser, inRange b'.up ∧ inRange b'.down ∧ inRange (b'.refresh items)) ∧
    inRange (b.enter sub).2 ∧
    inRange (b.parent hp pitems) ∧
    (0 < b.entries.length →
      b.down.selection = (b.selection + 1) % b.entries.length ∧
      b.up.selection = (b.selection + b.entries.length - 1) % b.entries.length) := by
  refine ⟨fun b' => ⟨inRange_up b', inRange_down b', inRange_refresh b' items⟩, ?_, ?_, ?_⟩
  · unfold FileBrowser.enter
    cases hbe : b.entries with
    | nil => simpa [hbe] using hb
    | cons x xs =>
      by_cases hdir : strHasSuffix "/" ((x :: xs).getD b.selection "") = true
      · simp only [hbe, hdir, if_pos]
        exact inRange_refresh _ sub
      · simp only [hbe, hdir, if_neg, not_false_iff]
        simpa [hbe] using hb
  · unfold FileBrowser.parent
    cases hp with
    | true => simpa using inRange_refresh _ pitems
    | false => simpa using hb
  · intro hlen
    have hmax : max 1 b.entries.length = b.entries.length := Nat.max_eq_right hlen
    constructor
    · show (pymod ((b.selection : Int) + 1) ((max 1 b.entries.length : Nat) : Int)).toNat =
        (b.selection + 1) % b.entries.length
      rw [hmax]
      unfold pymod
      have hcast : ((b.selection : Int) + 1) = ((b.selection + 1 : Nat) : Int) := by
        omega
      rw [hcast, ← Int.natCast_mod, Int.toNat_natCast]
    · show (pymod ((b.selection : Int) - 1) ((max 1 b.entries.length : Nat) : Int)).toNat =
        (b.selection + b.entries.length - 1) % b.entries.length
      rw [hmax]
      unfold pymod
      have hcast : (b.selection : Int) - 1 =
          ((b.selection + b.entries.length - 1 : Nat) : Int) +
            (b.entries.length : Int) * (-1) := by
        omega
      rw [hcast, Int.add_mul_emod_self_left, ← Int.natCast_mod, Int.toNat_natCast]

/-- C10 witness: a concrete two-entry browser — moving keeps the selection in
range and wraps modulo the entry count. -/
theorem c10_browser_selection_invariant_witness :
    inRange (FileBrowser.up ⟨["a/", "b.mp3"], 1⟩) ∧
    (FileBrowser.down ⟨["a/", "b.mp3"], 1⟩).selection = (1 + 1) % 2 := by
  have h := c10_browser_selection_invariant ⟨["a/", "b.mp3"], 1⟩ [] [] [] true (by decide)
  exact ⟨(h.1 ⟨["a/", "b.mp3"], 1⟩).1, (h.2.2.2 (by decide)).1⟩

end CubeTag
